import Mathlib

/-!
Verification development for the bdflib BDF container codec
(src/chunks.rs, src/io.rs).

Modelling conventions:
* Byte sequences are `List Nat` (each element a byte value 0..255).
* Rust `String` values are modelled by their UTF-8 byte sequences
  (`List Nat`); `String::from_utf8(..)` on bytes produced by a
  serializer is the identity on those bytes.
* Rust `HashMap` values are modelled by association lists together
  with `lookupA` / `insertA`; the claims compare maps extensionally,
  so iteration order (which a Rust `HashMap` does not fix) is
  represented by the list order.
* `u32` / `u64` casts (`as u32`) are modelled by `% 2^32` truncation,
  which `writeU32` performs implicitly via byte extraction.
* Failures are modelled in `Except String`; both Rust `Err` returns
  and Rust panics (out-of-range slice indexing, `expect`) are mapped
  to `Except.error` with a message identifying the failure.
* LZMA (the external xz2 crate) is abstracted as a parameter
  `lzma : List Nat → Option (List Nat)` giving the decoder's output
  (or `none` for a decoding failure), since the compression algorithm
  itself is outside the repository.
-/

deriving instance DecidableEq for Except

/-- Big-endian 4-byte encoding, model of `BigEndian::write_u32`
(the `% 256` byte extraction performs the `as u32` truncation). -/
def writeU32 (n : Nat) : List Nat :=
  [n / 2 ^ 24 % 256, n / 2 ^ 16 % 256, n / 2 ^ 8 % 256, n % 256]

/-- Big-endian 8-byte encoding, model of `BigEndian::write_u64`. -/
def writeU64 (n : Nat) : List Nat :=
  [n / 2 ^ 56 % 256, n / 2 ^ 48 % 256, n / 2 ^ 40 % 256, n / 2 ^ 32 % 256,
   n / 2 ^ 24 % 256, n / 2 ^ 16 % 256, n / 2 ^ 8 % 256, n % 256]

/-- Big-endian read of a 4-byte slice, model of `BigEndian::read_u32`. -/
def readU32 : List Nat → Nat
  | [a, b, c, d] => ((a * 256 + b) * 256 + c) * 256 + d
  | _ => 0

/-- Big-endian read of an 8-byte slice, model of `BigEndian::read_u64`. -/
def readU64 : List Nat → Nat
  | [a, b, c, d, e, f, g, h] =>
      ((((((a * 256 + b) * 256 + c) * 256 + d) * 256 + e) * 256 + f) * 256 + g) * 256 + h
  | _ => 0

/-- Model of the Rust slice expression `&data[pos..pos+len]`: returns the
slice, or an error when the range is out of bounds (a Rust panic). -/
def readSlice (data : List Nat) (pos len : Nat) : Except String (List Nat) :=
  if pos + len ≤ data.length then .ok ((data.drop pos).take len)
  else .error "index out of range"

/-- One shift-and-conditional-xor step of the reflected CRC-32 algorithm
(IEEE polynomial, reflected form 0xEDB88320), as used by
`crc::crc32::checksum_ieee`. -/
def crcRound (c : Nat) : Nat :=
  if c % 2 = 1 then (c / 2) ^^^ 0xEDB88320 else c / 2

/-- CRC-32 (IEEE, reflected, init and xorout 0xFFFFFFFF), model of
`crc32::checksum_ieee`. -/
def crc32 (data : List Nat) : Nat :=
  (data.foldl (fun c b => crcRound^[8] (c ^^^ b % 256)) 0xFFFFFFFF) ^^^ 0xFFFFFFFF

/-- Association-list lookup, model of `HashMap::get`. -/
def lookupA {α β : Type} [DecidableEq α] (l : List (α × β)) (k : α) : Option β :=
  (l.find? (fun p => p.1 == k)).map Prod.snd

/-- Association-list insert (replace or append), model of `HashMap::insert`
observed through `lookupA`. -/
def insertA {α β : Type} [DecidableEq α] : List (α × β) → α → β → List (α × β)
  | [], k, v => [(k, v)]
  | (k', v') :: rest, k, v =>
      if k' = k then (k, v) :: rest else (k', v') :: insertA rest k v

/-- Chunk name `"META"` as UTF-8 bytes (`META_CHUNK_NAME`). -/
def metaChunkName : List Nat := [77, 69, 84, 65]

/-- Chunk name `"HTBL"` as UTF-8 bytes (`HTBL_CHUNK_NAME`). -/
def htblChunkName : List Nat := [72, 84, 66, 76]

/-- Chunk name `"DTBL"` as UTF-8 bytes (`DTBL_CHUNK_NAME`). -/
def dtblChunkName : List Nat := [68, 84, 66, 76]

/-- File magic `b"BDF\x01RAINBOW"` (`BDF_HDR`). -/
def bdfHdr : List Nat := [66, 68, 70, 1, 82, 65, 73, 78, 66, 79, 87]

/-- The four zero bytes `NULL_BYTES` marking "no compression". -/
def nullBytes : List Nat := [0, 0, 0, 0]

/-- The compression method name `"lzma"` as UTF-8 bytes (`LZMA`). -/
def lzmaName : List Nat := [108, 122, 109, 97]

/-- Model of `struct GenericChunk`. -/
structure GenericChunk where
  length : Nat
  name : List Nat
  data : List Nat
  crc : Nat
  deriving DecidableEq, Repr

/-- Model of `struct MetaChunk`. -/
structure MetaChunk where
  chunk_count : Nat
  entries_per_chunk : Nat
  entry_count : Nat
  compression_method : Option (List Nat)
  deriving DecidableEq, Repr

/-- Model of `struct HashEntry`. -/
structure HashEntry where
  id : Nat
  output_length : Nat
  name : List Nat
  deriving DecidableEq, Repr

/-- Model of `struct HashLookupTable` (`entries: HashMap<u32, HashEntry>`). -/
structure HashLookupTable where
  entries : List (Nat × HashEntry)
  deriving DecidableEq, Repr

/-- Model of `struct DataEntry` (`hashes: HashMap<String, Vec<u8>>`). -/
structure DataEntry where
  plain : List Nat
  hashes : List (List Nat × List Nat)
  deriving DecidableEq, Repr

/-- Model of `HashEntry::serialize`. -/
def HashEntry.serialize (e : HashEntry) : List Nat :=
  writeU32 e.id ++ writeU32 e.output_length ++ writeU32 e.name.length ++ e.name

/-- Model of `HashLookupTable::serialize`: concatenation of the entry
serializations in iteration order. -/
def HashLookupTable.serialize (t : HashLookupTable) : List Nat :=
  t.entries.foldr (fun p acc => p.2.serialize ++ acc) []

/-- Model of `HashLookupTable::get_entry`: the first entry (in iteration
order) whose name matches, together with its key. -/
def HashLookupTable.get_entry (t : HashLookupTable) (name : List Nat) :
    Option (Nat × HashEntry) :=
  t.entries.find? (fun p => p.2.name == name)

/-- Model of `MetaChunk::serialize`. -/
def MetaChunk.serialize (m : MetaChunk) : List Nat :=
  writeU32 m.chunk_count ++ writeU32 m.entries_per_chunk ++ writeU64 m.entry_count ++
    (match m.compression_method with
     | some method => method
     | none => [0, 0, 0, 0])

/-- Model of the digest-record bytes one `(name, value)` pair contributes in
`DataEntry::serialize`: `id ++ value` when the name is found in the lookup
table, nothing otherwise. -/
def hashRecord (t : HashLookupTable) (p : List Nat × List Nat) : List Nat :=
  match t.get_entry p.1 with
  | some (id, _) => writeU32 id ++ p.2
  | none => []

/-- Model of the `hash_data` accumulation loop of `DataEntry::serialize`. -/
def hashDataOf (t : HashLookupTable) (hs : List (List Nat × List Nat)) : List Nat :=
  hs.foldr (fun p acc => hashRecord t p ++ acc) []

/-- Model of `DataEntry::serialize`. -/
def DataEntry.serialize (e : DataEntry) (t : HashLookupTable) : List Nat :=
  writeU32 (4 + e.plain.length + (hashDataOf t e.hashes).length) ++
    writeU32 e.plain.length ++ e.plain ++ hashDataOf t e.hashes

/-- Model of `GenericChunk::serialize`. -/
def GenericChunk.serialize (c : GenericChunk) : List Nat :=
  writeU32 c.length ++ c.name ++ c.data ++ writeU32 c.crc

/-- Model of `GenericChunk::from_data_entries`. -/
def GenericChunk.from_data_entries (entries : List DataEntry)
    (t : HashLookupTable) : GenericChunk :=
  let serialized := entries.foldr (fun e acc => e.serialize t ++ acc) []
  { length := serialized.length % 2 ^ 32
    name := dtblChunkName
    data := serialized
    crc := crc32 serialized }

/-- Model of `impl From<&MetaChunk> for GenericChunk`. -/
def GenericChunk.fromMetaChunk (m : MetaChunk) : GenericChunk :=
  { length := m.serialize.length % 2 ^ 32
    name := metaChunkName
    data := m.serialize
    crc := crc32 m.serialize }

/-- Model of `impl From<&HashLookupTable> for GenericChunk`. -/
def GenericChunk.fromHashLookupTable (t : HashLookupTable) : GenericChunk :=
  { length := t.serialize.length % 2 ^ 32
    name := htblChunkName
    data := t.serialize
    crc := crc32 t.serialize }

/-- Model of the `while chunk.data.len() > (position + 12)` loop of
`impl TryFrom<GenericChunk> for HashLookupTable`. The loop advances
`position` by exactly 12 per iteration (the source never adds
`name_length` to `position` after reading the name bytes), so the fuel
`data.length + 1` supplied by `HashLookupTable.try_from` can never be
exhausted before the loop guard fails or a read fails. -/
def htblLoop (data : List Nat) :
    Nat → Nat → List (Nat × HashEntry) → Except String (List (Nat × HashEntry))
  | 0, _, _ => .error "out of fuel"
  | fuel + 1, pos, acc =>
    if data.length > pos + 12 then
      match readSlice data pos 4, readSlice data (pos + 4) 4, readSlice data (pos + 8) 4 with
      | .ok idRaw, .ok outRaw, .ok nlRaw =>
          match readSlice data (pos + 12) (readU32 nlRaw) with
          | .ok name =>
              htblLoop data fuel (pos + 12)
                (insertA acc (readU32 idRaw) ⟨readU32 idRaw, readU32 outRaw, name⟩)
          | .error e => .error e
      | .error e, _, _ => .error e
      | _, .error e, _ => .error e
      | _, _, .error e => .error e
    else .ok acc

/-- Model of `impl TryFrom<GenericChunk> for HashLookupTable`. -/
def HashLookupTable.try_from (chunk : GenericChunk) : Except String HashLookupTable :=
  if chunk.name ≠ htblChunkName then .error "chunk name doesn't match"
  else
    match htblLoop chunk.data (chunk.data.length + 1) 0 [] with
    | .ok entries => .ok ⟨entries⟩
    | .error e => .error e

/-- Model of `impl TryFrom<GenericChunk> for MetaChunk`. -/
def MetaChunk.try_from (chunk : GenericChunk) : Except String MetaChunk :=
  if chunk.name ≠ metaChunkName then .error "chunk name doesn't match"
  else if chunk.data.length < 20 then .error "invalid chunk data"
  else
    match readSlice chunk.data 0 4, readSlice chunk.data 4 4,
        readSlice chunk.data 8 8, readSlice chunk.data 16 4 with
    | .ok ccRaw, .ok epcRaw, .ok ecRaw, .ok cmRaw =>
        .ok ⟨readU32 ccRaw, readU32 epcRaw, readU64 ecRaw,
          if cmRaw ≠ nullBytes then some cmRaw else none⟩
    | _, _, _, _ => .error "invalid chunk data"

/-- Model of the inner `while position < entry_end` digest-record loop of
`GenericChunk::data_entries`. Each iteration advances `position` by at
least 4, so the fuel `data.length + 1` supplied at the call site can never
be exhausted before the guard or a read fails. When the id is found, the
digest is read and recorded under the looked-up entry's name; when it is
unknown, the loop body does nothing further, so only the 4 id bytes are
consumed. -/
def recordsLoop (t : HashLookupTable) (data : List Nat) (entryEnd : Nat) :
    Nat → Nat → List (List Nat × List Nat) →
    Except String (List (List Nat × List Nat) × Nat)
  | 0, _, _ => .error "out of fuel"
  | fuel + 1, pos, acc =>
    if pos < entryEnd then
      match readSlice data pos 4 with
      | .error e => .error e
      | .ok idRaw =>
          match lookupA t.entries (readU32 idRaw) with
          | some he =>
              match readSlice data (pos + 4) he.output_length with
              | .error e => .error e
              | .ok hash =>
                  recordsLoop t data entryEnd fuel (pos + 4 + he.output_length)
                    (insertA acc he.name hash)
          | none => recordsLoop t data entryEnd fuel (pos + 4) acc
    else .ok (acc, pos)

/-- Model of the outer `while self.data.len() > (position + 8)` loop of
`GenericChunk::data_entries`. Each iteration advances `position` by at
least 8, so the fuel `data.length + 1` supplied by
`GenericChunk.data_entries` can never be exhausted before the guard or a
read fails. -/
def entriesLoop (t : HashLookupTable) (data : List Nat) :
    Nat → Nat → List DataEntry → Except String (List DataEntry)
  | 0, _, _ => .error "out of fuel"
  | fuel + 1, pos, acc =>
    if data.length > pos + 8 then
      match readSlice data pos 4, readSlice data (pos + 4) 4 with
      | .ok entryLenRaw, .ok pwLenRaw =>
          match readSlice data (pos + 8) (readU32 pwLenRaw) with
          | .error e => .error e
          | .ok pwPlain =>
              match recordsLoop t data (pos + 4 + readU32 entryLenRaw) (data.length + 1)
                  (pos + 8 + readU32 pwLenRaw) [] with
              | .error e => .error e
              | .ok r => entriesLoop t data fuel r.2 (acc ++ [⟨pwPlain, r.1⟩])
      | .error e, _ => .error e
      | _, .error e => .error e
    else .ok acc

/-- Model of `GenericChunk::data_entries`. -/
def GenericChunk.data_entries (c : GenericChunk) (t : HashLookupTable) :
    Except String (List DataEntry) :=
  if c.name = htblChunkName then .error "this is not a data chunk"
  else entriesLoop t c.data (c.data.length + 1) 0 []

/-- Model of `GenericChunk::decompress`, parameterized by the external
LZMA decoder. Returns the method's `Result` together with the post-state
of the `&mut self` chunk (unchanged on either early `Err` return). -/
def GenericChunk.decompress (lzma : List Nat → Option (List Nat))
    (c : GenericChunk) : Except String Unit × GenericChunk :=
  match lzma c.data with
  | none => (.error "failed to decompress data", c)
  | some decompressed =>
      if crc32 decompressed ≠ c.crc then
        (.error "the crc doesn't match the decrypted data", c)
      else
        (.ok (), { c with length := decompressed.length % 2 ^ 32, data := decompressed })

/-- Model of `BDFReader::next_chunk`, reading one chunk from the front of
the byte stream: `read_exact` failures on a short stream become errors,
and a `DTBL` chunk of a compressed file is decompressed (and thereby
CRC-checked) before being returned. -/
def BDFReader.next_chunk (lzma : List Nat → Option (List Nat)) (compressed : Bool)
    (stream : List Nat) : Except String (GenericChunk × List Nat) :=
  match readSlice stream 0 4 with
  | .error e => .error e
  | .ok lengthRaw =>
      match readSlice stream 4 4, readSlice stream 8 (readU32 lengthRaw),
          readSlice stream (8 + readU32 lengthRaw) 4 with
      | .ok nameRaw, .ok data, .ok crcRaw =>
          let genChunk : GenericChunk := ⟨readU32 lengthRaw, nameRaw, data, readU32 crcRaw⟩
          if genChunk.name = dtblChunkName ∧ compressed = true then
            match GenericChunk.decompress lzma genChunk with
            | (.error e, _) => .error e
            | (.ok _, c) => .ok (c, stream.drop (12 + readU32 lengthRaw))
          else .ok (genChunk, stream.drop (12 + readU32 lengthRaw))
      | .error e, _, _ => .error e
      | _, .error e, _ => .error e
      | _, _, .error e => .error e

/-- Round the rational `a / b` (with `b ≠ 0`) to the nearest integer,
ties to even (the IEEE-754 default rounding applied at integer
granularity). -/
def roundHalfEven (a b : Nat) : Nat :=
  let q := a / b
  let r := a % b
  if 2 * r < b then q
  else if b < 2 * r then q + 1
  else if q % 2 = 0 then q else q + 1

/-- Nonnegative IEEE-754 double-precision values, as needed to model the
`as f64` arithmetic in `MetaChunk::new` and
`BDFWriter::set_entries_per_chunk`. A finite value is `mantissa * 2 ^ exp`;
all values reachable from `u64` / `u32` inputs are nonnegative and far from
both overflow and the subnormal range, so sign, overflow and subnormals
need no representation. -/
inductive F64 where
  | nan
  | inf
  | finite (mantissa : Nat) (exp : Int)
  deriving DecidableEq, Repr

/-- Fuel-driven floor base-2 logarithm (agreeing with `Nat.log2` on its
domain of use), defined by structural recursion so that it evaluates by
kernel reduction; the fuel 70 covers every input below `2 ^ 70`, in
particular every `u64` value and every 53-bit mantissa. -/
def log2F : Nat → Nat → Nat
  | 0, _ => 0
  | fuel + 1, n => if 2 ≤ n then log2F fuel (n / 2) + 1 else 0

/-- Floor base-2 logarithm for the f64 model. -/
def nlog2 (n : Nat) : Nat := log2F 70 n

/-- Round the positive rational `a / b` (with `a ≥ 1`, `b ≥ 1`) to 53
significant bits, round to nearest, ties to even: returns `(m, e)` with
value `m * 2 ^ e` and `2 ^ 52 ≤ m < 2 ^ 53`. The first candidate exponent
puts `a / b / 2 ^ e0` in `(2 ^ 51, 2 ^ 53)`; one renormalization step in
either direction suffices. -/
def norm53 (a b : Nat) : Nat × Int :=
  let e0 : Int := (nlog2 a : Int) - (nlog2 b : Int) - 52
  let m0 :=
    if 0 ≤ e0 then roundHalfEven a (b * 2 ^ e0.toNat)
    else roundHalfEven (a * 2 ^ (-e0).toNat) b
  if 2 ^ 53 ≤ m0 then (m0 / 2, e0 + 1)
  else if m0 < 2 ^ 52 then
    let e1 := e0 - 1
    let m1 :=
      if 0 ≤ e1 then roundHalfEven a (b * 2 ^ e1.toNat)
      else roundHalfEven (a * 2 ^ (-e1).toNat) b
    (m1, e1)
  else (m0, e0)

/-- Model of the Rust cast `n as f64` for an unsigned integer `n`
(round to nearest, ties to even). -/
def f64ofNat (n : Nat) : F64 :=
  if n = 0 then .finite 0 0
  else
    let p := norm53 n 1
    .finite p.1 p.2

/-- Model of IEEE-754 double-precision division (correctly rounded, round
to nearest, ties to even) for nonnegative operands in the normal range. -/
def f64div : F64 → F64 → F64
  | .nan, _ => .nan
  | _, .nan => .nan
  | .inf, .inf => .nan
  | .inf, _ => .inf
  | .finite _ _, .inf => .finite 0 0
  | .finite m1 e1, .finite m2 e2 =>
    if m1 = 0 then (if m2 = 0 then .nan else .finite 0 0)
    else if m2 = 0 then .inf
    else
      let p := norm53 m1 m2
      .finite p.1 (p.2 + e1 - e2)

/-- Model of `f64::ceil`. The ceiling of a finite double is integral and
exactly representable, here as mantissa with exponent 0. -/
def F64.ceil : F64 → F64
  | .nan => .nan
  | .inf => .inf
  | .finite m e =>
      if 0 ≤ e then .finite (m * 2 ^ e.toNat) 0
      else .finite ((m + 2 ^ (-e).toNat - 1) / 2 ^ (-e).toNat) 0

/-- Model of the Rust cast `x as u32` from `f64`: truncation toward zero
saturated to the `u32` range, `NaN` to 0 (for the nonnegative values
modelled here). -/
def F64.castU32 : F64 → Nat
  | .nan => 0
  | .inf => 2 ^ 32 - 1
  | .finite m e =>
      if 0 ≤ e then min (m * 2 ^ e.toNat) (2 ^ 32 - 1)
      else min (m / 2 ^ (-e).toNat) (2 ^ 32 - 1)

/-- Model of the expression
`(entry_count as f64 / entries_per_chunk as f64).ceil() as u32` shared by
`MetaChunk::new` and `BDFWriter::set_entries_per_chunk`. -/
def chunkCountOf (entry_count entries_per_chunk : Nat) : Nat :=
  F64.castU32 (F64.ceil (f64div (f64ofNat entry_count) (f64ofNat entries_per_chunk)))

/-- Model of `MetaChunk::new`. -/
def MetaChunk.new (entry_count entries_per_chunk : Nat) (compress : Bool) : MetaChunk :=
  { chunk_count := chunkCountOf entry_count entries_per_chunk
    entries_per_chunk := entries_per_chunk
    entry_count := entry_count
    compression_method := if compress then some lzmaName else none }

/-- Model of `struct BDFWriter`. The `BufWriter` sink is the byte list
`sink`; the compression worker pool and its channels are not part of the
state model: `submitted` records, in submission order, the chunks handed
to the work channel by `flush` (workers compress and serialize them
outside the writer's own state). -/
structure BDFWriter where
  metadata : MetaChunk
  lookup_table : HashLookupTable
  data_entries : List DataEntry
  head_written : Bool
  compressed : Bool
  compression_level : Nat
  sink : List Nat
  submitted : List GenericChunk
  deriving DecidableEq, Repr

/-- Model of `BDFWriter::new` (`ENTRIES_PER_CHUNK = 100_000`). -/
def BDFWriter.new (entry_count : Nat) (compress : Bool) : BDFWriter :=
  { metadata := MetaChunk.new entry_count 100000 compress
    lookup_table := ⟨[]⟩
    data_entries := []
    head_written := false
    compressed := compress
    compression_level := 1
    sink := []
    submitted := [] }

/-- Model of `BDFWriter::add_lookup_entry`: returns the method's `Result`
together with the post-state of the writer. -/
def BDFWriter.add_lookup_entry (w : BDFWriter) (entry : HashEntry) :
    Except String Nat × BDFWriter :=
  if w.head_written then (.error "the head has already been written", w)
  else
    let id := w.lookup_table.entries.length
    (.ok id,
     { w with lookup_table := ⟨insertA w.lookup_table.entries id { entry with id := id }⟩ })

/-- Model of `BDFWriter::flush`: on the first call it writes the file
magic, the META chunk and the HTBL chunk to the sink and sets
`head_written`; it then packs the buffered entries into a data chunk,
submits it for compression and serialization, and clears the buffer. -/
def BDFWriter.flush (w : BDFWriter) : BDFWriter :=
  let w1 :=
    if w.head_written then w
    else
      { w with
        sink := w.sink ++ bdfHdr ++ (GenericChunk.fromMetaChunk w.metadata).serialize ++
          (GenericChunk.fromHashLookupTable w.lookup_table).serialize
        head_written := true }
  let dataChunk := GenericChunk.from_data_entries w1.data_entries w1.lookup_table
  { w1 with submitted := w1.submitted ++ [dataChunk], data_entries := [] }

/-- Model of `BDFWriter::add_data_entry`: buffer the entry and flush when
the buffer reaches `entries_per_chunk`. -/
def BDFWriter.add_data_entry (w : BDFWriter) (e : DataEntry) : BDFWriter :=
  let w1 := { w with data_entries := w.data_entries ++ [e] }
  if w1.metadata.entries_per_chunk ≤ w1.data_entries.length then w1.flush else w1

/-- Model of `BDFWriter::set_entries_per_chunk`. -/
def BDFWriter.set_entries_per_chunk (w : BDFWriter) (number : Nat) :
    Except String Unit × BDFWriter :=
  if w.head_written then (.error "the head has already been written", w)
  else
    (.ok (),
     { w with metadata :=
        { w.metadata with
          entries_per_chunk := number
          chunk_count := chunkCountOf w.metadata.entry_count number } })

/-- Length of a big-endian u32 encoding. -/
theorem length_writeU32 (n : Nat) : (writeU32 n).length = 4 := rfl

/-- Reading back a written u32 is the identity below `2 ^ 32`. -/
theorem readU32_writeU32 {n : Nat} (h : n < 2 ^ 32) : readU32 (writeU32 n) = n := by
  simp only [writeU32, readU32]
  omega

/-- Slicing at the boundary between a prefix and a middle section returns
the middle section. -/
theorem readSlice_append (pre mid suf : List Nat) :
    readSlice (pre ++ (mid ++ suf)) pre.length mid.length = .ok mid := by
  have hc : pre.length + mid.length ≤ (pre ++ (mid ++ suf)).length := by
    simp only [List.length_append]
    omega
  simp only [readSlice, if_pos hc, List.drop_left, List.take_left]

/-- Positional form of `readSlice_append` for rewriting: `q` is the
prefix before the slice, `m` the slice itself, `s` the bytes after it. -/
theorem readSlice_eq {d q m s : List Nat} {i n : Nat}
    (hd : d = q ++ (m ++ s)) (hi : i = q.length)
    (hn : n = m.length) : readSlice d i n = .ok m := by
  subst hd hi hn
  exact readSlice_append q m s

/-- Inserting a key absent from an association list appends the pair. -/
theorem insertA_fresh {α β : Type} [DecidableEq α] (l : List (α × β)) (k : α) (v : β)
    (h : ∀ p ∈ l, p.1 ≠ k) : insertA l k v = l ++ [(k, v)] := by
  induction l with
  | nil => rfl
  | cons hd tl ih =>
      simp only [insertA]
      rw [if_neg (h hd (by simp))]
      rw [ih (fun p hp => h p (List.mem_cons_of_mem hd hp))]
      simp

/-- Folding fresh inserts over an association list appends the list. -/
theorem foldl_insertA {α β : Type} [DecidableEq α] (hs : List (α × β)) :
    ∀ acc : List (α × β), (hs.map Prod.fst).Nodup →
      (∀ p ∈ acc, ∀ q ∈ hs, p.1 ≠ q.1) →
      hs.foldl (fun a p => insertA a p.1 p.2) acc = acc ++ hs := by
  induction hs with
  | nil => intro acc _ _; simp
  | cons hd tl ih =>
      intro acc hnd hdis
      simp only [List.map_cons, List.nodup_cons] at hnd
      simp only [List.foldl_cons]
      rw [insertA_fresh acc hd.1 hd.2 (fun p hp => hdis p hp hd (by simp))]
      rw [ih (acc ++ [hd]) hnd.2 ?_]
      · simp
      · intro p hp q hq
        rcases List.mem_append.mp hp with h1 | h2
        · exact hdis p h1 q (List.mem_cons_of_mem hd hq)
        · have : p = hd := by simpa using h2
          subst this
          intro hcontra
          exact hnd.1 (hcontra ▸ List.mem_map_of_mem Prod.fst hq)

/-- The entry found by `get_entry` bears the name that was searched. -/
theorem get_entry_name {t : HashLookupTable} {n : List Nat} {k : Nat} {he : HashEntry}
    (h : t.get_entry n = some (k, he)) : he.name = n := by
  have := List.find?_some h
  simpa using this

/-- Decidable well-formedness of one digest `(name, value)` pair of a
`DataEntry` with respect to a lookup table: the name resolves via
`get_entry` to a key and entry on which `HashMap` lookup by key agrees
(as it always does for a Rust `HashMap`, whose keys are unique), the
value's length is the entry's `output_length` (the data-model invariant
of the format), and the key is a `u32`. -/
def digestOk (t : HashLookupTable) (p : List Nat × List Nat) : Bool :=
  match t.get_entry p.1 with
  | some (k, he) =>
      (lookupA t.entries k == some he) && (p.2.length == he.output_length) &&
        decide (k < 2 ^ 32)
  | none => false

/-- Unfolding of `digestOk`. -/
theorem digestOk_spec {t : HashLookupTable} {p : List Nat × List Nat}
    (h : digestOk t p = true) :
    ∃ k he, t.get_entry p.1 = some (k, he) ∧ lookupA t.entries k = some he ∧
      p.2.length = he.output_length ∧ k < 2 ^ 32 ∧ he.name = p.1 := by
  unfold digestOk at h
  split at h
  next k he heq =>
    simp only [Bool.and_eq_true, beq_iff_eq, decide_eq_true_eq] at h
    exact ⟨k, he, heq, h.1.1, h.1.2, h.2, get_entry_name heq⟩
  next => cases h

/-- A well-formed digest pair contributes `writeU32 k ++ value` to the
hash data. -/
theorem hashRecord_of_digestOk {t : HashLookupTable} {p : List Nat × List Nat}
    {k : Nat} {he : HashEntry} (h : t.get_entry p.1 = some (k, he)) :
    hashRecord t p = writeU32 k ++ p.2 := by
  simp [hashRecord, h]

/-- Hash data of a cons. -/
theorem hashDataOf_cons (t : HashLookupTable) (p : List Nat × List Nat)
    (tl : List (List Nat × List Nat)) :
    hashDataOf t (p :: tl) = hashRecord t p ++ hashDataOf t tl := rfl

/-- Each well-formed digest pair contributes at least 4 bytes, so there
are at most as many pairs as hash-data bytes. -/
theorem length_le_hashDataOf {t : HashLookupTable} :
    ∀ {hs : List (List Nat × List Nat)}, (∀ p ∈ hs, digestOk t p = true) →
      hs.length ≤ (hashDataOf t hs).length
  | [], _ => by simp [hashDataOf]
  | p :: tl, h => by
      obtain ⟨k, he, hget, -, -, -, -⟩ := digestOk_spec (h p (by simp))
      rw [hashDataOf_cons, hashRecord_of_digestOk hget]
      have ih := length_le_hashDataOf (fun q hq => h q (List.mem_cons_of_mem p hq))
      simp only [List.length_append, List.length_cons, length_writeU32]
      omega

/-- Parsing the digest records produced by serializing well-formed digest
pairs consumes them exactly and reproduces the pairs (accumulated through
`insertA`). -/
theorem recordsLoop_roundtrip (t : HashLookupTable) :
    ∀ (hs : List (List Nat × List Nat)) (data pre : List Nat)
      (acc : List (List Nat × List Nat)) (fuel pos eEnd : Nat),
      data = pre ++ hashDataOf t hs →
      pos = pre.length →
      eEnd = pre.length + (hashDataOf t hs).length →
      (∀ p ∈ hs, digestOk t p = true) →
      hs.length < fuel →
      recordsLoop t data eEnd fuel pos acc =
        .ok (hs.foldl (fun a p => insertA a p.1 p.2) acc, eEnd) := by
  intro hs
  induction hs with
  | nil =>
      intro data pre acc fuel pos eEnd hdata hpos hend _ hfuel
      cases fuel with
      | zero => omega
      | succ f =>
          subst hpos hend
          simp [recordsLoop, hashDataOf]
  | cons p tl ih =>
      intro data pre acc fuel pos eEnd hdata hpos hend hok hfuel
      obtain ⟨k, he, hget, hlook, hlen, hk, hname⟩ := digestOk_spec (hok p (by simp))
      cases fuel with
      | zero => simp at hfuel
      | succ f =>
          have hrec : hashDataOf t (p :: tl) = writeU32 k ++ (p.2 ++ hashDataOf t tl) := by
            rw [hashDataOf_cons, hashRecord_of_digestOk hget, List.append_assoc]
          have hguard : pos < eEnd := by
            rw [hpos, hend, hrec]
            simp only [List.length_append, length_writeU32]
            omega
          have hid : readSlice data pos 4 = .ok (writeU32 k) := by
            refine readSlice_eq (q := pre) (m := writeU32 k)
              (s := p.2 ++ hashDataOf t tl) ?_ hpos ?_
            · rw [hdata, hrec]
            · exact (length_writeU32 k).symm
          have hhash : readSlice data (pos + 4) he.output_length = .ok p.2 := by
            refine readSlice_eq (q := pre ++ writeU32 k) (m := p.2)
              (s := hashDataOf t tl) ?_ ?_ ?_
            · rw [hdata, hrec, List.append_assoc]
            · simp only [List.length_append, length_writeU32]
              omega
            · omega
          rw [recordsLoop, if_pos hguard, hid]
          simp only [readU32_writeU32 hk, hlook, hhash, hname]
          rw [ih data (pre ++ (writeU32 k ++ p.2)) (insertA acc p.1 p.2) f
            (pos + 4 + he.output_length) eEnd ?_ ?_ ?_ ?_ ?_]
          · simp
          · rw [hdata, hrec]
            simp [List.append_assoc]
          · simp only [List.length_append, length_writeU32]
            omega
          · rw [hend, hrec]
            simp only [List.length_append, length_writeU32]
            omega
          · exact fun q hq => hok q (List.mem_cons_of_mem p hq)
          · simp only [List.length_cons] at hfuel
            omega

/-- Decoding the serialization of one well-formed data entry yields exactly
that entry. -/
theorem entriesLoop_single (e : DataEntry) (t : HashLookupTable)
    (hok : ∀ p ∈ e.hashes, digestOk t p = true)
    (hnd : (e.hashes.map Prod.fst).Nodup)
    (hne : e.plain ≠ [] ∨ e.hashes ≠ [])
    (hfit : 4 + e.plain.length + (hashDataOf t e.hashes).length < 2 ^ 32) :
    entriesLoop t (e.serialize t) ((e.serialize t).length + 1) 0 [] = .ok [e] := by
  have hlen_ser : (e.serialize t).length =
      8 + e.plain.length + (hashDataOf t e.hashes).length := by
    simp only [DataEntry.serialize, List.length_append, length_writeU32]
  have hposH : 0 < e.plain.length + (hashDataOf t e.hashes).length := by
    rcases hne with h | h
    · have hp := List.length_pos.mpr h
      omega
    · cases hhs : e.hashes with
      | nil => exact absurd hhs h
      | cons q tl =>
          have hq : q ∈ e.hashes := by rw [hhs]; exact List.mem_cons_self q tl
          obtain ⟨k, he, hget, -, -, -, -⟩ := digestOk_spec (hok q hq)
          rw [hashDataOf_cons, hashRecord_of_digestOk hget]
          simp only [List.length_append, length_writeU32]
          omega
  have hLfit : 4 + e.plain.length + (hashDataOf t e.hashes).length < 2 ^ 32 := hfit
  have hPfit : e.plain.length < 2 ^ 32 := by omega
  have hser : e.serialize t =
      writeU32 (4 + e.plain.length + (hashDataOf t e.hashes).length) ++
        (writeU32 e.plain.length ++ (e.plain ++ hashDataOf t e.hashes)) := by
    simp [DataEntry.serialize, List.append_assoc]
  have hguard : (e.serialize t).length > 0 + 8 := by omega
  have h1 : readSlice (e.serialize t) 0 4 =
      .ok (writeU32 (4 + e.plain.length + (hashDataOf t e.hashes).length)) := by
    refine readSlice_eq (q := [])
      (m := writeU32 (4 + e.plain.length + (hashDataOf t e.hashes).length))
      (s := writeU32 e.plain.length ++ (e.plain ++ hashDataOf t e.hashes))
      ?_ rfl (length_writeU32 _).symm
    simpa using hser
  have h2 : readSlice (e.serialize t) (0 + 4) 4 = .ok (writeU32 e.plain.length) := by
    refine readSlice_eq
      (q := writeU32 (4 + e.plain.length + (hashDataOf t e.hashes).length))
      (m := writeU32 e.plain.length)
      (s := e.plain ++ hashDataOf t e.hashes) ?_ ?_ (length_writeU32 _).symm
    · rw [hser]
    · simp [length_writeU32]
  have h3 : readSlice (e.serialize t) (0 + 8) e.plain.length = .ok e.plain := by
    refine readSlice_eq
      (q := writeU32 (4 + e.plain.length + (hashDataOf t e.hashes).length) ++
        writeU32 e.plain.length) (m := e.plain) (s := hashDataOf t e.hashes) ?_ ?_ rfl
    · rw [hser]
      simp [List.append_assoc]
    · simp [length_writeU32]
  have hrl := recordsLoop_roundtrip t e.hashes (e.serialize t)
    (writeU32 (4 + e.plain.length + (hashDataOf t e.hashes).length) ++
      writeU32 e.plain.length ++ e.plain) [] ((e.serialize t).length + 1)
    (0 + 8 + e.plain.length) (0 + 4 + (4 + e.plain.length + (hashDataOf t e.hashes).length))
    (by rw [hser]; simp [List.append_assoc])
    (by simp only [List.length_append, length_writeU32])
    (by
      simp only [List.length_append, length_writeU32]
      omega)
    hok
    (by
      have := length_le_hashDataOf (t := t) hok
      omega)
  have hfold : e.hashes.foldl (fun a p => insertA a p.1 p.2)
      ([] : List (List Nat × List Nat)) = e.hashes := by
    have := foldl_insertA e.hashes [] hnd (by simp)
    simpa using this
  rw [hfold] at hrl
  conv_lhs => rw [entriesLoop]
  rw [if_pos hguard, h1, h2]
  simp only [readU32_writeU32 hLfit, readU32_writeU32 hPfit, h3, hrl]
  have hf2 : ∃ f2, (e.serialize t).length = f2 + 1 := ⟨(e.serialize t).length - 1, by omega⟩
  obtain ⟨f2, hf2⟩ := hf2
  rw [hf2, entriesLoop, if_neg (by omega)]
  rfl

/-- C2 (amended claim, proved): decoding the encoding of a data entry `e`
against a lookup table `t` yields exactly `[e]` — the same plaintext and
the same digest mapping — provided that (i) every digest name of `e`
resolves in `t` and the table's by-key lookup returns that same entry
(automatic for a Rust `HashMap`, whose keys are unique), (ii) every digest
value has exactly the `output_length` declared by the entry its name
resolves to, (iii) the digest names are distinct, (iv) the entry is not
the completely empty entry (empty plaintext and no digests), and (v) the
serialized entry fits its `u32` length fields. The digest mapping is
recovered independently of the order in which digest records are emitted:
any permutation of `e.hashes` satisfies the same hypotheses and
round-trips likewise. -/
theorem decode_encode_roundtrip (e : DataEntry) (t : HashLookupTable)
    (hok : ∀ p ∈ e.hashes, digestOk t p = true)
    (hnd : (e.hashes.map Prod.fst).Nodup)
    (hne : e.plain ≠ [] ∨ e.hashes ≠ [])
    (hfit : 4 + e.plain.length + (hashDataOf t e.hashes).length < 2 ^ 32) :
    GenericChunk.data_entries (GenericChunk.from_data_entries [e] t) t = .ok [e] := by
  have hchunk : GenericChunk.from_data_entries [e] t =
      { length := (e.serialize t).length % 2 ^ 32
        name := dtblChunkName
        data := e.serialize t
        crc := crc32 (e.serialize t) } := by
    simp [GenericChunk.from_data_entries]
  rw [hchunk, GenericChunk.data_entries]
  rw [if_neg (by simp [dtblChunkName, htblChunkName])]
  exact entriesLoop_single e t hok hnd hne hfit

/-- C2 counterexample: the claim as frozen fails at the completely empty
data entry (empty plaintext, no digests) with the empty lookup table:
every digest name of the entry is vacuously present, yet decoding the
encoding yields no entries at all instead of the entry back, because the
decoder's loop guard `data.len() > position + 8` never admits the final
8-byte serialized entry. -/
theorem decode_encode_empty_entry :
    GenericChunk.data_entries
        (GenericChunk.from_data_entries [⟨[], []⟩] ⟨[]⟩) ⟨[]⟩ = .ok [] ∧
      (Except.ok ([] : List DataEntry) : Except String (List DataEntry)) ≠
        .ok [⟨[], []⟩] := by
  exact ⟨by decide, by decide⟩

/-- Witness for the round-trip theorem at a concrete entry (plaintext
"lol", digests under names "f" and "b") and table. -/
theorem decode_encode_roundtrip_witness :
    (∀ p ∈ ([([102], [1, 2, 3, 4]), ([98], [9, 8, 7, 6, 5])] :
        List (List Nat × List Nat)),
      digestOk ⟨[(0, ⟨0, 4, [102]⟩), (1, ⟨1, 5, [98]⟩)]⟩ p = true) ∧
    GenericChunk.data_entries
      (GenericChunk.from_data_entries
        [⟨[108, 111, 108], [([102], [1, 2, 3, 4]), ([98], [9, 8, 7, 6, 5])]⟩]
        ⟨[(0, ⟨0, 4, [102]⟩), (1, ⟨1, 5, [98]⟩)]⟩)
      ⟨[(0, ⟨0, 4, [102]⟩), (1, ⟨1, 5, [98]⟩)]⟩ =
      .ok [⟨[108, 111, 108], [([102], [1, 2, 3, 4]), ([98], [9, 8, 7, 6, 5])]⟩] :=
  ⟨by decide,
   decode_encode_roundtrip
     ⟨[108, 111, 108], [([102], [1, 2, 3, 4]), ([98], [9, 8, 7, 6, 5])]⟩
     ⟨[(0, ⟨0, 4, [102]⟩), (1, ⟨1, 5, [98]⟩)]⟩
     (by decide) (by decide) (by decide) (by decide)⟩

/-- C4 (amended claim, proved): when a data chunk contains a digest record
whose `hash_id` is not present in the lookup table, the decoder does not
abort and does not report an error: it silently consumes only the 4 id
bytes of the unknown record, keeps scanning, and still produces the entry
with whatever records did resolve. Here a single serialized entry holds a
known record `(k, v)` followed by an unknown record id `u`; decoding
returns the entry with only the known digest, and succeeds. -/
theorem data_entries_unknown_id (t : HashLookupTable) (plain v : List Nat)
    (k u len0 crc0 : Nat) (he : HashEntry)
    (hk : k < 2 ^ 32) (hu : u < 2 ^ 32)
    (hlook : lookupA t.entries k = some he)
    (hnone : lookupA t.entries u = none)
    (hvlen : v.length = he.output_length)
    (hfit : 12 + plain.length + v.length < 2 ^ 32) :
    GenericChunk.data_entries
      ⟨len0, dtblChunkName,
        writeU32 (12 + plain.length + v.length) ++ writeU32 plain.length ++ plain ++
          writeU32 k ++ v ++ writeU32 u, crc0⟩ t =
      .ok [⟨plain, [(he.name, v)]⟩] := by
  have hPfit : plain.length < 2 ^ 32 := by omega
  set D := writeU32 (12 + plain.length + v.length) ++ writeU32 plain.length ++ plain ++
    writeU32 k ++ v ++ writeU32 u with hDdef
  have hlenD : D.length = 16 + plain.length + v.length := by
    rw [hDdef]
    simp only [List.length_append, length_writeU32]
    omega
  have h1 : readSlice D 0 4 = .ok (writeU32 (12 + plain.length + v.length)) := by
    refine readSlice_eq (q := [])
      (m := writeU32 (12 + plain.length + v.length))
      (s := writeU32 plain.length ++ (plain ++ (writeU32 k ++ (v ++ writeU32 u))))
      ?_ rfl (length_writeU32 _).symm
    rw [hDdef]
    simp [List.append_assoc]
  have h2 : readSlice D (0 + 4) 4 = .ok (writeU32 plain.length) := by
    refine readSlice_eq (q := writeU32 (12 + plain.length + v.length))
      (m := writeU32 plain.length)
      (s := plain ++ (writeU32 k ++ (v ++ writeU32 u)))
      ?_ ?_ (length_writeU32 _).symm
    · rw [hDdef]
      simp [List.append_assoc]
    · simp [length_writeU32]
  have h3 : readSlice D (0 + 8) plain.length = .ok plain := by
    refine readSlice_eq
      (q := writeU32 (12 + plain.length + v.length) ++ writeU32 plain.length)
      (m := plain) (s := writeU32 k ++ (v ++ writeU32 u)) ?_ ?_ rfl
    · rw [hDdef]
      simp [List.append_assoc]
    · simp [length_writeU32]
  have h4 : readSlice D (0 + 8 + plain.length) 4 = .ok (writeU32 k) := by
    refine readSlice_eq
      (q := writeU32 (12 + plain.length + v.length) ++ writeU32 plain.length ++ plain)
      (m := writeU32 k) (s := v ++ writeU32 u) ?_ ?_ (length_writeU32 _).symm
    · rw [hDdef]
      simp [List.append_assoc]
    · simp only [List.length_append, length_writeU32]
  have h5 : readSlice D (0 + 8 + plain.length + 4) he.output_length = .ok v := by
    refine readSlice_eq
      (q := writeU32 (12 + plain.length + v.length) ++ writeU32 plain.length ++ plain ++
        writeU32 k)
      (m := v) (s := writeU32 u) ?_ ?_ hvlen.symm
    · rw [hDdef]
      simp [List.append_assoc]
    · simp only [List.length_append, length_writeU32]
  have h6 : readSlice D (0 + 8 + plain.length + 4 + he.output_length) 4 =
      .ok (writeU32 u) := by
    refine readSlice_eq
      (q := writeU32 (12 + plain.length + v.length) ++ writeU32 plain.length ++ plain ++
        writeU32 k ++ v)
      (m := writeU32 u) (s := []) ?_ ?_ (length_writeU32 _).symm
    · rw [hDdef]
      simp [List.append_assoc]
    · simp only [List.length_append, length_writeU32]
      omega
  have hrl : recordsLoop t D (0 + 4 + (12 + plain.length + v.length))
      (D.length + 1) (0 + 8 + plain.length) [] =
      .ok ([(he.name, v)], 0 + 8 + plain.length + 4 + he.output_length + 4) := by
    rw [recordsLoop, if_pos (by omega), h4]
    simp only [readU32_writeU32 hk, hlook, h5]
    rw [show D.length = 15 + plain.length + v.length + 1 by omega]
    rw [recordsLoop, if_pos (by omega), h6]
    simp only [readU32_writeU32 hu, hnone]
    rw [show (15 + plain.length + v.length : Nat) = 14 + plain.length + v.length + 1 by omega]
    rw [recordsLoop, if_neg (by omega)]
    simp [insertA]
  rw [GenericChunk.data_entries]
  rw [if_neg (by simp [dtblChunkName, htblChunkName])]
  show entriesLoop t D (D.length + 1) 0 [] = _
  rw [entriesLoop, if_pos (by omega), h1, h2]
  simp only [readU32_writeU32 hfit, readU32_writeU32 hPfit, h3, hrl]
  rw [show D.length = 15 + plain.length + v.length + 1 by omega]
  rw [entriesLoop, if_neg (by omega)]
  simp

/-- C4 counterexample: the claim as frozen fails on a concrete data chunk.
The chunk holds one entry (plaintext byte 97) with a known record
(id 0, digest [5, 6, 7, 8]) followed by a record with unknown id 9 and
digest bytes [1, 2, 3, 4]; the table knows only id 0 (name byte 102,
output length 4). Decoding does not abort and reports no fatal parse
error: it returns `Ok` with the entry, having silently skipped the
unknown id and then misread the digest bytes [1, 2, 3, 4] as one further
(also unknown) record id. -/
theorem data_entries_unknown_id_silent :
    GenericChunk.data_entries
      ⟨25, dtblChunkName,
        [0, 0, 0, 21, 0, 0, 0, 1, 97, 0, 0, 0, 0, 5, 6, 7, 8, 0, 0, 0, 9, 1, 2, 3, 4],
        0⟩
      ⟨[(0, ⟨0, 4, [102]⟩)]⟩ =
      .ok [⟨[97], [([102], [5, 6, 7, 8])]⟩] := by decide

/-- Witness for the unknown-id theorem at concrete values. -/
theorem data_entries_unknown_id_witness :
    lookupA ([(0, ⟨0, 4, [102]⟩)] : List (Nat × HashEntry)) 0 = some ⟨0, 4, [102]⟩ ∧
    lookupA ([(0, ⟨0, 4, [102]⟩)] : List (Nat × HashEntry)) 9 = none ∧
    GenericChunk.data_entries
      ⟨0, dtblChunkName,
        writeU32 (12 + 1 + 4) ++ writeU32 1 ++ [97] ++ writeU32 0 ++
          [5, 6, 7, 8] ++ writeU32 9, 0⟩
      ⟨[(0, ⟨0, 4, [102]⟩)]⟩ =
      .ok [⟨[97], [([102], [5, 6, 7, 8])]⟩] :=
  ⟨by decide, by decide,
   data_entries_unknown_id ⟨[(0, ⟨0, 4, [102]⟩)]⟩ [97] [5, 6, 7, 8] 0 9 0 0
     ⟨0, 4, [102]⟩ (by decide) (by decide) (by decide) (by decide) (by decide)
     (by decide)⟩

/-- C5: `add_lookup_entry` assigns the inserted entry the id equal to the
current size of the lookup table before inserting, and returns that id;
when the header has already been written it fails with the
already-written error and leaves the writer (in particular the lookup
table) unchanged; and an `add_data_entry` that fills the buffer to
`entries_per_chunk` triggers a flush that marks the header written,
after which `add_lookup_entry` fails with that error and changes
nothing. -/
theorem add_lookup_entry_spec (w : BDFWriter) (entry e2 : HashEntry) (d : DataEntry) :
    (w.head_written = false →
      w.add_lookup_entry entry =
        (.ok w.lookup_table.entries.length,
         { w with lookup_table :=
            ⟨insertA w.lookup_table.entries w.lookup_table.entries.length
              { entry with id := w.lookup_table.entries.length }⟩ })) ∧
    (w.head_written = true →
      w.add_lookup_entry entry = (.error "the head has already been written", w)) ∧
    (w.metadata.entries_per_chunk ≤ w.data_entries.length + 1 →
      (w.add_data_entry d).head_written = true ∧
      (w.add_data_entry d).add_lookup_entry e2 =
        (.error "the head has already been written", w.add_data_entry d)) := by
  refine ⟨?_, ?_, ?_⟩
  · intro h
    simp [BDFWriter.add_lookup_entry, h]
  · intro h
    simp [BDFWriter.add_lookup_entry, h]
  · intro h
    have hflush : (w.add_data_entry d).head_written = true := by
      simp only [BDFWriter.add_data_entry]
      rw [if_pos (by simp only [List.length_append, List.length_cons]; omega)]
      by_cases hw : w.head_written <;> simp [BDFWriter.flush, hw]
    exact ⟨hflush, by simp [BDFWriter.add_lookup_entry, hflush]⟩

/-- Witness for the `add_lookup_entry` specification: a fresh writer
accepts an entry under id 0; after `set_entries_per_chunk 1` and one
buffered data entry the flush fires and a further `add_lookup_entry` is
rejected with the writer unchanged. -/
theorem add_lookup_entry_spec_witness :
    (BDFWriter.new 2 false).head_written = false ∧
    (BDFWriter.new 2 false).add_lookup_entry ⟨0, 5, [98]⟩ =
      (.ok (BDFWriter.new 2 false).lookup_table.entries.length,
       { BDFWriter.new 2 false with
          lookup_table :=
            ⟨insertA (BDFWriter.new 2 false).lookup_table.entries
              (BDFWriter.new 2 false).lookup_table.entries.length
              { (⟨0, 5, [98]⟩ : HashEntry) with
                  id := (BDFWriter.new 2 false).lookup_table.entries.length }⟩ }) ∧
    (((BDFWriter.new 2 false).set_entries_per_chunk 1).2.add_data_entry
        ⟨[97], []⟩).head_written = true ∧
    (((BDFWriter.new 2 false).set_entries_per_chunk 1).2.add_data_entry
        ⟨[97], []⟩).add_lookup_entry ⟨1, 4, [99]⟩ =
      (.error "the head has already been written",
       ((BDFWriter.new 2 false).set_entries_per_chunk 1).2.add_data_entry ⟨[97], []⟩) :=
  ⟨by decide,
   (add_lookup_entry_spec (BDFWriter.new 2 false) ⟨0, 5, [98]⟩ ⟨1, 4, [99]⟩
      ⟨[97], []⟩).1 (by decide),
   ((add_lookup_entry_spec (((BDFWriter.new 2 false).set_entries_per_chunk 1).2)
      ⟨0, 5, [98]⟩ ⟨1, 4, [99]⟩ ⟨[97], []⟩).2.2 (by decide)).1,
   ((add_lookup_entry_spec (((BDFWriter.new 2 false).set_entries_per_chunk 1).2)
      ⟨0, 5, [98]⟩ ⟨1, 4, [99]⟩ ⟨[97], []⟩).2.2 (by decide)).2⟩

/-- Digest pairs whose name is absent from the table contribute nothing. -/
theorem hashRecord_of_absent {t : HashLookupTable} {p : List Nat × List Nat}
    (h : t.get_entry p.1 = none) : hashRecord t p = [] := by
  simp [hashRecord, h]

/-- Filtering out digest pairs whose name is absent does not change the
serialized hash data. -/
theorem hashDataOf_filter (t : HashLookupTable) (hs : List (List Nat × List Nat)) :
    hashDataOf t (hs.filter (fun p => (t.get_entry p.1).isSome)) = hashDataOf t hs := by
  induction hs with
  | nil => rfl
  | cons p tl ih =>
      by_cases hp : (t.get_entry p.1).isSome
      · rw [List.filter_cons_of_pos (by simpa using hp), hashDataOf_cons,
          hashDataOf_cons, ih]
      · rw [List.filter_cons_of_neg (by simpa using hp), hashDataOf_cons, ih,
          hashRecord_of_absent (Option.not_isSome_iff_eq_none.mp hp)]
        simp

/-- C8: encoding a data entry omits exactly those digests whose name is
not present in the lookup table: the serialization (which can raise no
error, being a total function into byte lists) of `e` coincides with the
serialization of the entry restricted to the digests whose names the
table resolves, so the plaintext and all present digests are emitted
normally while absent ones are silently dropped. -/
theorem serialize_omits_absent_digests (e : DataEntry) (t : HashLookupTable) :
    e.serialize t =
      DataEntry.serialize
        ⟨e.plain, e.hashes.filter (fun p => (t.get_entry p.1).isSome)⟩ t := by
  unfold DataEntry.serialize
  simp only [hashDataOf_filter]

/-- C1 (code bug): serializing the two-entry lookup table
with entries (id 0, output_length 1, name byte 97) and
(id 1, output_length 1, name byte 98) into an HTBL chunk and parsing it
back does not reproduce the table. The parser advances only 12 bytes per
entry — `position += name_length` is missing after the name bytes are
read — so its second iteration misreads the first entry's name byte as
the leading byte of an id, reads a garbage name length, and fails on an
out-of-range slice (an index panic in the Rust source). -/
theorem htbl_roundtrip_fails :
    HashLookupTable.try_from
      (GenericChunk.fromHashLookupTable ⟨[(0, ⟨0, 1, [97]⟩), (1, ⟨1, 1, [98]⟩)]⟩) =
      .error "index out of range" := by decide

/-- C7 (code bug): `chunk_count` is computed as
`(entry_count as f64 / entries_per_chunk as f64).ceil() as u32` and does
not equal the exact integer ceiling for all inputs. At
`entry_count = 2 ^ 32`, `entries_per_chunk = 1` the cast saturates: the
code stores 4294967295 but the exact ceiling is 4294967296. At
`entry_count = 2 ^ 53 + 1`, `entries_per_chunk = 2 ^ 23` the `as f64`
conversion rounds the entry count to `2 ^ 53`: the code stores
1073741824 but the exact ceiling is 1073741825. `set_entries_per_chunk`
recomputes with the same expression and diverges identically. -/
theorem chunk_count_not_exact_ceil :
    (MetaChunk.new 4294967296 1 false).chunk_count = 4294967295 ∧
    (4294967296 + 1 - 1) / 1 = 4294967296 ∧
    (MetaChunk.new 4294967296 1 false).chunk_count ≠ (4294967296 + 1 - 1) / 1 ∧
    (MetaChunk.new 9007199254740993 8388608 false).chunk_count = 1073741824 ∧
    (9007199254740993 + 8388608 - 1) / 8388608 = 1073741825 ∧
    ((BDFWriter.new 4294967296 false).set_entries_per_chunk 1).2.metadata.chunk_count =
      4294967295 := by
  refine ⟨by decide, by decide, by decide, by decide, by decide, by decide⟩

/-- C6: `decompress` verifies that the CRC-32 of the LZMA-decompressed
bytes equals the chunk's stored CRC. On disagreement it returns the fatal
integrity error "the crc doesn't match the decrypted data"; on agreement
it succeeds with the chunk's payload replaced by the decompressed bytes
and the length updated accordingly. -/
theorem decompress_crc_check (lzma : List Nat → Option (List Nat))
    (c : GenericChunk) (d : List Nat) (hl : lzma c.data = some d) :
    (crc32 d ≠ c.crc →
      GenericChunk.decompress lzma c =
        (.error "the crc doesn't match the decrypted data", c)) ∧
    (crc32 d = c.crc →
      GenericChunk.decompress lzma c =
        (.ok (), { c with length := d.length % 2 ^ 32, data := d })) := by
  constructor
  · intro h
    simp [GenericChunk.decompress, hl, h]
  · intro h
    simp [GenericChunk.decompress, hl, h]

/-- Witness for the decompress CRC check: a mismatching stored CRC is
rejected with the chunk untouched, a matching one accepted with the
payload replaced. -/
theorem decompress_crc_check_witness :
    (crc32 [7, 7] ≠ 12345 ∧
      GenericChunk.decompress (fun _ => some [7, 7]) ⟨1, dtblChunkName, [9], 12345⟩ =
        (.error "the crc doesn't match the decrypted data",
         ⟨1, dtblChunkName, [9], 12345⟩)) ∧
    GenericChunk.decompress (fun _ => some [7, 7]) ⟨1, dtblChunkName, [9], crc32 [7, 7]⟩ =
      (.ok (), ⟨[7, 7].length % 2 ^ 32, dtblChunkName, [7, 7], crc32 [7, 7]⟩) :=
  ⟨⟨by decide, (decompress_crc_check (fun _ => some [7, 7])
      ⟨1, dtblChunkName, [9], 12345⟩ [7, 7] rfl).1 (by decide)⟩,
   (decompress_crc_check (fun _ => some [7, 7])
      ⟨1, dtblChunkName, [9], crc32 [7, 7]⟩ [7, 7] rfl).2 rfl⟩

/-- C10: whenever `decompress` returns an error — an LZMA decoding
failure or a CRC mismatch — the chunk is left exactly as it was: length,
name, data and crc are all unchanged. -/
theorem decompress_error_leaves_chunk (lzma : List Nat → Option (List Nat))
    (c : GenericChunk) (e : String)
    (h : (GenericChunk.decompress lzma c).1 = .error e) :
    (GenericChunk.decompress lzma c).2 = c := by
  unfold GenericChunk.decompress at h ⊢
  cases hl : lzma c.data with
  | none => simp [hl]
  | some d =>
      by_cases hc : crc32 d ≠ c.crc
      · simp [hl, hc]
      · exfalso
        simp [hl, hc] at h

/-- Witness for the error-preservation theorem: an LZMA failure leaves
the chunk untouched. -/
theorem decompress_error_leaves_chunk_witness :
    (GenericChunk.decompress (fun _ => none) ⟨1, dtblChunkName, [9], 5⟩).1 =
      .error "failed to decompress data" ∧
    (GenericChunk.decompress (fun _ => none) ⟨1, dtblChunkName, [9], 5⟩).2 =
      ⟨1, dtblChunkName, [9], 5⟩ :=
  ⟨by decide,
   decompress_error_leaves_chunk (fun _ => none) ⟨1, dtblChunkName, [9], 5⟩
     "failed to decompress data" (by decide)⟩

/-- Parsing one well-framed chunk from the front of a stream succeeds and
returns its fields verbatim whenever the decompression branch is not
taken. -/
theorem next_chunk_frame (lzma : List Nat → Option (List Nat)) (compressed : Bool)
    (nm data rest : List Nat) (len crc : Nat)
    (hnm : nm.length = 4) (hlen : data.length = len) (hfit : len < 2 ^ 32)
    (hcrc : crc < 2 ^ 32)
    (hnd : ¬(nm = dtblChunkName ∧ compressed = true)) :
    BDFReader.next_chunk lzma compressed
      (writeU32 len ++ nm ++ data ++ writeU32 crc ++ rest) =
      .ok (⟨len, nm, data, crc⟩, rest) := by
  set S := writeU32 len ++ nm ++ data ++ writeU32 crc ++ rest with hS
  have r1 : readSlice S 0 4 = .ok (writeU32 len) := by
    refine readSlice_eq (q := []) (m := writeU32 len)
      (s := nm ++ (data ++ (writeU32 crc ++ rest))) ?_ rfl (length_writeU32 _).symm
    rw [hS]
    simp [List.append_assoc]
  have r2 : readSlice S 4 4 = .ok nm := by
    refine readSlice_eq (q := writeU32 len) (m := nm)
      (s := data ++ (writeU32 crc ++ rest)) ?_ ?_ hnm.symm
    · rw [hS]
      simp [List.append_assoc]
    · simp [length_writeU32]
  have r3 : readSlice S 8 len = .ok data := by
    refine readSlice_eq (q := writeU32 len ++ nm) (m := data)
      (s := writeU32 crc ++ rest) ?_ ?_ hlen.symm
    · rw [hS]
      simp [List.append_assoc]
    · simp [List.length_append, length_writeU32, hnm]
  have r4 : readSlice S (8 + len) 4 = .ok (writeU32 crc) := by
    refine readSlice_eq (q := writeU32 len ++ nm ++ data) (m := writeU32 crc)
      (s := rest) ?_ ?_ (length_writeU32 _).symm
    · rw [hS]
      simp [List.append_assoc]
    · simp only [List.length_append, length_writeU32, hnm]
      omega
  have hdrop : S.drop (12 + len) = rest := by
    rw [hS, show writeU32 len ++ nm ++ data ++ writeU32 crc ++ rest =
        (writeU32 len ++ nm ++ data ++ writeU32 crc) ++ rest by
          simp [List.append_assoc],
      show 12 + len = (writeU32 len ++ nm ++ data ++ writeU32 crc).length by
        simp only [List.length_append, length_writeU32, hnm]
        omega]
    exact List.drop_left _ _
  rw [BDFReader.next_chunk, r1]
  simp only [readU32_writeU32 hfit, r2, r3, r4, readU32_writeU32 hcrc]
  rw [if_neg (by simpa using hnd), hdrop]

/-- C3 (amended claim, proved): the reader CRC-checks a chunk only as part
of decompression, which runs only for DTBL chunks of a file declared
compressed. For an uncompressed file (`compressed = false`) `next_chunk`
performs no CRC verification at all: a well-framed DTBL chunk whose
payload does not match its stored CRC — for example a payload with one
byte flipped while the CRC was left unchanged — is returned successfully
and verbatim instead of being rejected with a CRC-mismatch error. -/
theorem next_chunk_uncompressed_skips_crc (lzma : List Nat → Option (List Nat))
    (data rest : List Nat) (len crc : Nat)
    (hlen : data.length = len) (hfit : len < 2 ^ 32) (hcrc : crc < 2 ^ 32)
    (hbad : crc32 data ≠ crc) :
    BDFReader.next_chunk lzma false
      (writeU32 len ++ dtblChunkName ++ data ++ writeU32 crc ++ rest) =
      .ok (⟨len, dtblChunkName, data, crc⟩, rest) :=
  next_chunk_frame lzma false dtblChunkName data rest len crc rfl hlen hfit hcrc
    (by simp)

set_option maxRecDepth 16384 in
/-- C3 counterexample: a concrete uncompressed DTBL chunk whose 9-byte
payload (the valid serialization of the entry with plaintext byte 97 and
no digests, with its final byte 97 flipped to 98) no longer matches the
stored CRC of the original payload is nevertheless returned as `Ok` by
`next_chunk`, corrupted data and all — not rejected with a CrcMismatch
error. -/
theorem next_chunk_accepts_corrupted_uncompressed :
    BDFReader.next_chunk (fun _ => none) false
      (writeU32 9 ++ dtblChunkName ++ [0, 0, 0, 5, 0, 0, 0, 1, 98] ++
        writeU32 (crc32 [0, 0, 0, 5, 0, 0, 0, 1, 97]) ++ []) =
      .ok (⟨9, dtblChunkName, [0, 0, 0, 5, 0, 0, 0, 1, 98],
            crc32 [0, 0, 0, 5, 0, 0, 0, 1, 97]⟩, []) ∧
    crc32 [0, 0, 0, 5, 0, 0, 0, 1, 98] ≠ crc32 [0, 0, 0, 5, 0, 0, 0, 1, 97] :=
  ⟨by decide, by decide⟩

set_option maxRecDepth 16384 in
/-- Witness for the uncompressed no-CRC-check theorem at the corrupted
payload of the counterexample. -/
theorem next_chunk_uncompressed_skips_crc_witness :
    (([0, 0, 0, 5, 0, 0, 0, 1, 98] : List Nat).length = 9 ∧
      crc32 [0, 0, 0, 5, 0, 0, 0, 1, 98] ≠ crc32 [0, 0, 0, 5, 0, 0, 0, 1, 97]) ∧
    BDFReader.next_chunk (fun _ => none) false
      (writeU32 9 ++ dtblChunkName ++ [0, 0, 0, 5, 0, 0, 0, 1, 98] ++
        writeU32 (crc32 [0, 0, 0, 5, 0, 0, 0, 1, 97]) ++ [1, 2]) =
      .ok (⟨9, dtblChunkName, [0, 0, 0, 5, 0, 0, 0, 1, 98],
            crc32 [0, 0, 0, 5, 0, 0, 0, 1, 97]⟩, [1, 2]) :=
  ⟨⟨by decide, by decide⟩,
   next_chunk_uncompressed_skips_crc (fun _ => none)
     [0, 0, 0, 5, 0, 0, 0, 1, 98] [1, 2] 9 (crc32 [0, 0, 0, 5, 0, 0, 0, 1, 97])
     (by decide) (by decide) (by decide) (by decide)⟩

/-- C9 (amended claim, proved): `next_chunk` performs no validation of the
chunk name: a well-framed chunk with any 4-byte name is returned to the
caller as parsed (whenever the DTBL-and-compressed decompression branch
is not taken), rather than rejected. Name checking happens only in the
TryFrom conversions: converting a chunk to a MetaChunk fails with "chunk
name doesn't match" unless the name is "META", and to a HashLookupTable
unless the name is "HTBL". -/
theorem next_chunk_no_name_validation (lzma : List Nat → Option (List Nat))
    (compressed : Bool) (nm data rest : List Nat) (len crc : Nat)
    (hnm : nm.length = 4) (hlen : data.length = len) (hfit : len < 2 ^ 32)
    (hcrc : crc < 2 ^ 32)
    (hnd : ¬(nm = dtblChunkName ∧ compressed = true)) :
    BDFReader.next_chunk lzma compressed
      (writeU32 len ++ nm ++ data ++ writeU32 crc ++ rest) =
      .ok (⟨len, nm, data, crc⟩, rest) ∧
    (∀ c : GenericChunk, c.name ≠ metaChunkName →
      MetaChunk.try_from c = .error "chunk name doesn't match") ∧
    (∀ c : GenericChunk, c.name ≠ htblChunkName →
      HashLookupTable.try_from c = .error "chunk name doesn't match") := by
  refine ⟨next_chunk_frame lzma compressed nm data rest len crc hnm hlen hfit hcrc hnd,
    ?_, ?_⟩
  · intro c hc
    simp [MetaChunk.try_from, hc]
  · intro c hc
    simp [HashLookupTable.try_from, hc]

/-- C9 counterexample: a well-framed chunk named "XXXX" — none of META,
HTBL, DTBL — is returned by `next_chunk` as `Ok` with the chunk, not
rejected with a fatal parse error. -/
theorem next_chunk_returns_unknown_name :
    BDFReader.next_chunk (fun _ => none) false
      (writeU32 2 ++ [88, 88, 88, 88] ++ [5, 6] ++ writeU32 7 ++ []) =
      .ok (⟨2, [88, 88, 88, 88], [5, 6], 7⟩, []) := by decide

/-- Witness for the no-name-validation theorem at the name "XXXX" on a
compressed-flagged reader. -/
theorem next_chunk_no_name_validation_witness :
    (([88, 88, 88, 88] : List Nat).length = 4 ∧
      ¬(([88, 88, 88, 88] : List Nat) = dtblChunkName ∧ true = true)) ∧
    BDFReader.next_chunk (fun _ => none) true
      (writeU32 2 ++ [88, 88, 88, 88] ++ [5, 6] ++ writeU32 7 ++ [3]) =
      .ok (⟨2, [88, 88, 88, 88], [5, 6], 7⟩, [3]) :=
  ⟨⟨by decide, by decide⟩,
   (next_chunk_no_name_validation (fun _ => none) true [88, 88, 88, 88] [5, 6] [3] 2 7
     (by decide) (by decide) (by decide) (by decide) (by decide)).1⟩
